import Mathlib

/- Verification of the bicubic resize operator (mace/ops/resize_bicubic.cc).

The C++ code is shallowly embedded as follows:
* `index_t` (a 64-bit signed integer) is modelled as `ℤ`; none of the
  verified properties depend on 64-bit wraparound, and the source never
  relies on overflow for these code paths.
* `float` arithmetic is idealized as exact rational arithmetic (`ℚ`).
  Claims about exact floating-point round-off are therefore read as
  claims about the ideal real-valued computation the code implements.
* raw float arrays are modelled as total functions/lists; an index guard
  inside the table model marks out-of-range reads by returning `0`, and
  the bounds theorems show those reads never happen.
-/

namespace MaceOps

/-- Modelled from the spec: `common::utils::kTableSize`, the fixed table
resolution constant `K` (declared in `mace/ops/common/utils.h`, which is not
part of the embedded source).  The spec fixes no numeric value; every theorem
below that touches it depends only on `1 ≤ kTableSize`, via the generic
lemmas proved over an arbitrary `K`.  We pick the customary value `1024`. -/
def kTableSize : ℤ := 1024

/-- `std-numeric-limits<float>-min()`: the smallest positive normalized
binary32 value, `2 ^ (-126)`, as an exact rational. -/
def floatMin : ℚ := 1 / 2 ^ 126

/-- `lrintf` under the default rounding mode: round to the nearest integer,
ties to even. -/
def rne (q : ℚ) : ℤ :=
  if q - (⌊q⌋ : ℚ) < 1 / 2 then ⌊q⌋
  else if 1 / 2 < q - (⌊q⌋ : ℚ) then ⌊q⌋ + 1
  else if ⌊q⌋ % 2 = 0 then ⌊q⌋ else ⌊q⌋ + 1

/-- The coefficient table of `InitCoeffsTable(A)` for an arbitrary table
resolution `K`, as a function from the flat array index to the stored
value.  For `i ∈ [0, K]` the array holds at index `2*i` the first
cubic-convolution branch evaluated at `x = i / K` and at index `2*i + 1`
the second branch evaluated at `x = i / K + 1`.  Reads outside the
allocated `2 * (K + 1)` entries give the junk value `0` (undefined
behaviour in the C++ source). -/
def CoeffsTableEntry (A : ℚ) (K j : ℤ) : ℚ :=
  if 0 ≤ j ∧ j ≤ 2 * K + 1 then
    let x : ℚ := ((j / 2 : ℤ) : ℚ) / (K : ℚ)
    if j % 2 = 0 then
      ((A + 2) * x - (A + 3)) * x * x + 1
    else
      let x1 : ℚ := x + 1
      ((A * x1 - 5 * A) * x1 + 8 * A) * x1 - 4 * A
  else 0

/-- `InitCoeffsTable(A)` from resize_bicubic.cc: the coefficient table at
the fixed resolution `kTableSize`. -/
def InitCoeffsTable (A : ℚ) (j : ℤ) : ℚ :=
  CoeffsTableEntry A kTableSize j

/-- `GetCoeffsTable`: the half-pixel (TensorFlow) table uses `A = -0.5`,
the default table uses `A = -0.75`. -/
def GetCoeffsTable (is_tensorflow_half_pixel : Bool) : ℤ → ℚ :=
  if is_tensorflow_half_pixel then InitCoeffsTable (-1 / 2)
  else InitCoeffsTable (-3 / 4)

/-- `Bound(val, limit) = min(limit - 1, max(0, val))`. -/
def Bound (val limit : ℤ) : ℤ :=
  min (limit - 1) (max 0 val)

/-- Modelled from the spec: the coordinate transformation enum
(`mace/ops/common/coordinate_transformation_mode.h`, not part of the
embedded source) with the three conventions the operator distinguishes. -/
inductive CoordinateTransformationMode where
  | NONE
  | HALF_PIXEL
  | PYTORCH_HALF_PIXEL
deriving DecidableEq

/-- Lines 72-77 of GetWeightsAndIndices: map the output coordinate to the
continuous input coordinate `in`. -/
def MapCoordinate (scale : ℚ) (mode : CoordinateTransformationMode)
    (out_loc out_size : ℤ) : ℚ :=
  if mode = .HALF_PIXEL then ((out_loc : ℚ) + 1 / 2) * scale - 1 / 2
  else if mode = .PYTORCH_HALF_PIXEL then
    if 1 < out_size then ((out_loc : ℚ) + 1 / 2) * scale - 1 / 2 else 0
  else (out_loc : ℚ) * scale

/-- Lines 78-80 of GetWeightsAndIndices: `in_loc = floor(in)`,
`delta = in - in_loc`, `offset = lrintf(delta * kTableSize)`. -/
def TableOffset (scale : ℚ) (mode : CoordinateTransformationMode)
    (out_loc out_size : ℤ) : ℤ :=
  rne ((MapCoordinate scale mode out_loc out_size -
        (⌊MapCoordinate scale mode out_loc out_size⌋ : ℚ)) * (kTableSize : ℚ))

/-- Lines 86-98: the four raw half-pixel weights, each taken from the
`A = -0.5` table only when the corresponding clamped index equals its
nominal unclamped position, and `0` otherwise. -/
def HalfPixelRawWeights (in_loc offset limit : ℤ) : List ℚ :=
  [if Bound (in_loc - 1) limit = in_loc - 1 then
     GetCoeffsTable true (offset * 2 + 1) else 0,
   if Bound in_loc limit = in_loc then
     GetCoeffsTable true (offset * 2) else 0,
   if Bound (in_loc + 1) limit = in_loc + 1 then
     GetCoeffsTable true ((kTableSize - offset) * 2) else 0,
   if Bound (in_loc + 2) limit = in_loc + 2 then
     GetCoeffsTable true ((kTableSize - offset) * 2 + 1) else 0]

/-- Lines 99-107: sum the four weights and, when the magnitude of the sum
is at least `1000 * floatMin`, rescale each weight by the reciprocal of
the sum. -/
def RenormalizeWeights : List ℚ → List ℚ
  | [w0, w1, w2, w3] =>
    let weight_sum : ℚ := w0 + w1 + w2 + w3
    if 1000 * floatMin ≤ |weight_sum| then
      [w0 * (1 / weight_sum), w1 * (1 / weight_sum),
       w2 * (1 / weight_sum), w3 * (1 / weight_sum)]
    else [w0, w1, w2, w3]
  | l => l

/-- Lines 109-113: the non-half-pixel weight branch, reading the default
(`A = -0.75`) table directly with no zeroing and no renormalization. -/
def DefaultWeights (offset : ℤ) : List ℚ :=
  [GetCoeffsTable false (offset * 2 + 1),
   GetCoeffsTable false (offset * 2),
   GetCoeffsTable false ((kTableSize - offset) * 2),
   GetCoeffsTable false ((kTableSize - offset) * 2 + 1)]

/-- `GetWeightsAndIndices` (lines 64-115): returns the four interpolation
weights and the four clamped source indices for one output coordinate. -/
def GetWeightsAndIndices (scale : ℚ) (mode : CoordinateTransformationMode)
    (out_loc out_size limit : ℤ) : List ℚ × List ℤ :=
  let inC : ℚ := MapCoordinate scale mode out_loc out_size
  let in_loc : ℤ := ⌊inC⌋
  let offset : ℤ := TableOffset scale mode out_loc out_size
  let indices : List ℤ :=
    [Bound (in_loc - 1) limit, Bound in_loc limit,
     Bound (in_loc + 1) limit, Bound (in_loc + 2) limit]
  let weights : List ℚ :=
    if mode = .HALF_PIXEL then
      RenormalizeWeights (HalfPixelRawWeights in_loc offset limit)
    else DefaultWeights offset
  (weights, indices)

/-- `Interpolate1D(weights, values)`: the fixed four-term dot product. -/
def Interpolate1D (weights values : List ℚ) : ℚ :=
  values.getD 0 0 * weights.getD 0 0 + values.getD 1 0 * weights.getD 1 0 +
    values.getD 2 0 * weights.getD 2 0 + values.getD 3 0 * weights.getD 3 0

/-- A read from a flat float buffer at a (possibly signed) index; out of
range gives the junk value `0` (undefined behaviour in the C++ source). -/
def ReadBuf (l : List ℚ) (i : ℤ) : ℚ :=
  if 0 ≤ i then l.getD i.toNat 0 else 0

/-- Lines 153-171 of `ResizeImage`: the computation of one output element
from the 4x4 patch of one channel: four 1D interpolations of the row taps
with the column weights, then one 1D interpolation of those intermediates
with the row weights. -/
def ResizeImageElem (channelInput : ℤ → ℚ) (in_width : ℤ)
    (y_weights : List ℚ) (y_indices : List ℤ)
    (x_weights : List ℚ) (x_indices : List ℤ) : ℚ :=
  let values : ℤ → List ℚ := fun yi =>
    [channelInput (yi * in_width + x_indices.getD 0 0),
     channelInput (yi * in_width + x_indices.getD 1 0),
     channelInput (yi * in_width + x_indices.getD 2 0),
     channelInput (yi * in_width + x_indices.getD 3 0)]
  let coeff : List ℚ :=
    [Interpolate1D x_weights (values (y_indices.getD 0 0)),
     Interpolate1D x_weights (values (y_indices.getD 1 0)),
     Interpolate1D x_weights (values (y_indices.getD 2 0)),
     Interpolate1D x_weights (values (y_indices.getD 3 0))]
  Interpolate1D y_weights coeff

/-- `ResizeImage` (lines 123-176): produce the flat output buffer, laid out
`[batch, channel, out_row, out_column]` with the column fastest-varying,
exactly as the loop nest writes `channel_output_ptr[y * out_width + x]`
at channel base `(b * channels + c) * out_height * out_width`.  The
fork-join parallel dispatch writes every element exactly once, so the
output is modelled as the map over all flat positions. -/
def ResizeImage (images : List ℚ) (batch in_height in_width out_height
    out_width channels : ℤ) (height_scale width_scale : ℚ)
    (mode : CoordinateTransformationMode) : List ℚ :=
  (List.range (batch * channels * out_height * out_width).toNat).map fun p =>
    let x : ℤ := (p : ℤ) % out_width
    let y : ℤ := (p : ℤ) / out_width % out_height
    let c : ℤ := (p : ℤ) / (out_width * out_height) % channels
    let b : ℤ := (p : ℤ) / (out_width * out_height * channels)
    let yy := GetWeightsAndIndices height_scale mode y out_height in_height
    let xx := GetWeightsAndIndices width_scale mode x out_width in_width
    let channelInput : ℤ → ℚ := fun idx =>
      ReadBuf images ((b * channels + c) * in_height * in_width + idx)
    ResizeImageElem channelInput in_width yy.1 yy.2 xx.1 xx.2

/-- An external tensor: its dimension vector and its flat data buffer. -/
structure Tensor where
  dims : List ℤ
  data : List ℚ

/-- The two fatal validation failures of `Run` (raised by `MACE_CHECK`):
the input rank check at line 198/284 and the second-input check at
line 212/294. -/
inductive RunError where
  | badRank
  | missingSizeInput
deriving DecidableEq

/-- `size_.size() == 2 && size_[0] > 0 && size_[1] > 0` (line 207/289). -/
def StaticSizeValid (size_ : List ℤ) : Bool :=
  decide (size_.length = 2) && decide (0 < size_.getD 0 0) &&
    decide (0 < size_.getD 1 0)

/-- Lines 205-214 / 287-296: resolve the output size from the static
`size` argument when it is a valid positive pair, otherwise require a
second input tensor.  `input1` models the presence of `Input(1)` together
with the `[out_height, out_width]` pair that
`common::utils::GetSizeParamFromTensor` (modelled from the spec: a second
tensor supplies the target size as two integers; the helper lives in
`mace/ops/common/utils.h`, not part of the embedded source) reads from
it. -/
def ResolveSize (size_ : List ℤ) (input1 : Option (ℤ × ℤ)) :
    Except RunError (ℤ × ℤ) :=
  if StaticSizeValid size_ then .ok (size_.getD 0 0, size_.getD 1 0)
  else
    match input1 with
    | some hw => .ok hw
    | none => .error .missingSizeInput

/-- Modelled from the spec: `common::utils::CalculateResizeScale` (in
`mace/ops/common/utils.h`, not part of the embedded source):
`scale = (in - 1) / (out - 1)` when aligning corners and both dimensions
exceed 1, otherwise `in / out`. -/
def CalculateResizeScale (in_size out_size : ℤ) (align_corners : Bool) : ℚ :=
  if align_corners = true ∧ 1 < in_size ∧ 1 < out_size then
    ((in_size : ℚ) - 1) / ((out_size : ℚ) - 1)
  else (in_size : ℚ) / (out_size : ℚ)

/-- `ResizeBicubicOp<CPU, float>::Run` (lines 193-253).  The result pairs
the produced flat output buffer with a flag recording whether the 2D
resize driver `ResizeImage` was invoked (`false` on the identity fast
path of lines 223-228, which copies the input buffer verbatim).  A
validation failure aborts before any output is produced, which the
`Except` result models: on `.error` no output buffer exists at all. -/
def Run (size_ : List ℤ) (align_corners : Bool)
    (mode : CoordinateTransformationMode) (input : Tensor)
    (input1 : Option (ℤ × ℤ)) : Except RunError (List ℚ × Bool) :=
  if input.dims.length = 4 then
    let batch : ℤ := input.dims.getD 0 0
    let channels : ℤ := input.dims.getD 1 0
    let in_height : ℤ := input.dims.getD 2 0
    let in_width : ℤ := input.dims.getD 3 0
    match ResolveSize size_ input1 with
    | .error e => .error e
    | .ok (out_height, out_width) =>
      if out_height = in_height ∧ out_width = in_width then
        .ok (input.data.take (batch * channels * in_height * in_width).toNat,
             false)
      else
        let height_scale := CalculateResizeScale in_height out_height
          align_corners
        let width_scale := CalculateResizeScale in_width out_width
          align_corners
        .ok (ResizeImage input.data batch in_height in_width out_height
              out_width channels height_scale width_scale mode, true)
  else .error .badRank

/-- The single action the GPU adapter can take after validation: invoke
`kernel_->Compute(context, input, out_height, out_width, output)` with the
resolved output size.  The accelerator kernel itself is an external
collaborator (`mace/ops/opencl/image/resize_bicubic.h`, not part of the
embedded source), so only the delegation with its resolved arguments is
recorded. -/
inductive GpuAction where
  | computeKernel (out_height out_width : ℤ)
deriving DecidableEq

/-- `ResizeBicubicOp<GPU, float>::Run` (lines 281-299): validate the rank,
resolve the output size exactly as the CPU adapter does, then always
delegate to the accelerator kernel; there is no identity fast path and no
copy in this adapter. -/
def GpuRun (size_ : List ℤ) (input : Tensor) (input1 : Option (ℤ × ℤ)) :
    Except RunError GpuAction :=
  if input.dims.length = 4 then
    match ResolveSize size_ input1 with
    | .error e => .error e
    | .ok (out_height, out_width) => .ok (.computeKernel out_height out_width)
  else .error .badRank

/-- Whether an adapter result is a validation failure. -/
def isErr {α : Type} : Except RunError α → Bool
  | .error _ => true
  | .ok _ => false

lemma rne_bounds (x : ℚ) : ⌊x⌋ ≤ rne x ∧ rne x ≤ ⌊x⌋ + 1 := by
  unfold rne
  split_ifs <;> omega

lemma rne_sub_abs (x : ℚ) : |(rne x : ℚ) - x| ≤ 1 / 2 := by
  have h0 : (⌊x⌋ : ℚ) ≤ x := Int.floor_le x
  have h1 : x < (⌊x⌋ : ℚ) + 1 := Int.lt_floor_add_one x
  unfold rne
  split_ifs with hd hd2 he <;>
    (rw [abs_le]; push_cast; constructor <;> linarith)

lemma rne_nearest (x : ℚ) (n : ℤ) : |(rne x : ℚ) - x| ≤ |(n : ℚ) - x| := by
  rcases eq_or_ne n (rne x) with rfl | hne
  · exact le_refl _
  · have hint : (1 : ℚ) ≤ |(n : ℚ) - (rne x : ℚ)| := by
      have h1 : (1 : ℤ) ≤ |n - rne x| := Int.one_le_abs (by omega)
      exact_mod_cast h1
    have htri : |(n : ℚ) - (rne x : ℚ)| ≤ |(n : ℚ) - x| + |(rne x : ℚ) - x| := by
      have := abs_sub_le ((n : ℚ)) x ((rne x : ℚ))
      calc |(n : ℚ) - (rne x : ℚ)| ≤ |(n : ℚ) - x| + |x - (rne x : ℚ)| := this
        _ = |(n : ℚ) - x| + |(rne x : ℚ) - x| := by rw [abs_sub_comm x]
    have hh := rne_sub_abs x
    linarith

lemma rne_eq_round (x : ℚ) (h : x - (⌊x⌋ : ℚ) ≠ 1 / 2) : rne x = round x := by
  have h0 : (⌊x⌋ : ℚ) ≤ x := Int.floor_le x
  have h1 : x < (⌊x⌋ : ℚ) + 1 := Int.lt_floor_add_one x
  rw [round_eq]
  unfold rne
  split_ifs with hd hd2 he
  · symm
    rw [Int.floor_eq_iff]
    constructor <;> linarith
  · symm
    rw [Int.floor_eq_iff]
    constructor <;> (push_cast; linarith)
  · exact absurd (by linarith : x - (⌊x⌋ : ℚ) = 1 / 2) h
  · exact absurd (by linarith : x - (⌊x⌋ : ℚ) = 1 / 2) h

lemma tableOffset_bounds (scale : ℚ) (mode : CoordinateTransformationMode)
    (out_loc out_size : ℤ) :
    0 ≤ TableOffset scale mode out_loc out_size ∧
      TableOffset scale mode out_loc out_size ≤ kTableSize := by
  unfold TableOffset
  set inC := MapCoordinate scale mode out_loc out_size with hin
  set d : ℚ := inC - (⌊inC⌋ : ℚ) with hd
  have hd0 : 0 ≤ d := by
    have := Int.floor_le inC
    simp only [hd]
    linarith
  have hd1 : d < 1 := by
    have := Int.lt_floor_add_one inC
    simp only [hd]
    linarith
  have hx0 : 0 ≤ d * (kTableSize : ℚ) := by
    have : (0 : ℚ) ≤ (kTableSize : ℚ) := by norm_num [kTableSize]
    positivity
  have hx1 : d * (kTableSize : ℚ) < (kTableSize : ℚ) := by
    have hK : (0 : ℚ) < (kTableSize : ℚ) := by norm_num [kTableSize]
    nlinarith
  have hf0 : 0 ≤ ⌊d * (kTableSize : ℚ)⌋ := Int.floor_nonneg.mpr hx0
  have hf1 : ⌊d * (kTableSize : ℚ)⌋ < kTableSize := by
    rw [Int.floor_lt]
    exact_mod_cast hx1
  have hb := rne_bounds (d * (kTableSize : ℚ))
  omega

lemma bound_range (val limit : ℤ) (h : 1 ≤ limit) :
    0 ≤ Bound val limit ∧ Bound val limit ≤ limit - 1 := by
  unfold Bound
  omega

lemma coeffsEntry_even (A : ℚ) (K i : ℤ) (h0 : 0 ≤ i) (h1 : i ≤ K) :
    CoeffsTableEntry A K (i * 2) =
      ((A + 2) * ((i : ℚ) / (K : ℚ)) - (A + 3)) * ((i : ℚ) / (K : ℚ)) *
        ((i : ℚ) / (K : ℚ)) + 1 := by
  have hdiv : i * 2 / 2 = i := by omega
  simp only [CoeffsTableEntry]
  rw [if_pos (by omega), if_pos (by omega), hdiv]

lemma coeffsEntry_odd (A : ℚ) (K i : ℤ) (h0 : 0 ≤ i) (h1 : i ≤ K) :
    CoeffsTableEntry A K (i * 2 + 1) =
      ((A * ((i : ℚ) / (K : ℚ) + 1) - 5 * A) * ((i : ℚ) / (K : ℚ) + 1) +
        8 * A) * ((i : ℚ) / (K : ℚ) + 1) - 4 * A := by
  have hdiv : (i * 2 + 1) / 2 = i := by omega
  simp only [CoeffsTableEntry]
  rw [if_pos (by omega), if_neg (by omega), hdiv]

/-- Partition of unity of the sampled cubic convolution kernel: the four
table entries read at a fixed offset sum to exactly `1`, for every shape
parameter `A` and every table resolution `K ≥ 1`. -/
lemma coeffsEntry_partition_sum (A : ℚ) (K off : ℤ) (hK : 1 ≤ K)
    (h0 : 0 ≤ off) (h1 : off ≤ K) :
    CoeffsTableEntry A K (off * 2 + 1) + CoeffsTableEntry A K (off * 2) +
      CoeffsTableEntry A K ((K - off) * 2) +
      CoeffsTableEntry A K ((K - off) * 2 + 1) = 1 := by
  rw [coeffsEntry_even A K off h0 h1, coeffsEntry_odd A K off h0 h1,
    coeffsEntry_even A K (K - off) (by omega) (by omega),
    coeffsEntry_odd A K (K - off) (by omega) (by omega)]
  have hKne : (K : ℚ) ≠ 0 := by
    exact_mod_cast (by omega : K ≠ 0)
  push_cast
  field_simp
  ring

lemma renormalize_of_threshold (w0 w1 w2 w3 : ℚ)
    (h : 1000 * floatMin ≤ |w0 + w1 + w2 + w3|) :
    RenormalizeWeights [w0, w1, w2, w3] =
      [w0 * (1 / (w0 + w1 + w2 + w3)), w1 * (1 / (w0 + w1 + w2 + w3)),
       w2 * (1 / (w0 + w1 + w2 + w3)), w3 * (1 / (w0 + w1 + w2 + w3))] := by
  simp only [RenormalizeWeights]
  rw [if_pos h]

lemma renormalize_sum_one (w0 w1 w2 w3 : ℚ)
    (h : 1000 * floatMin ≤ |w0 + w1 + w2 + w3|) :
    (RenormalizeWeights [w0, w1, w2, w3]).sum = 1 := by
  have hne : w0 + w1 + w2 + w3 ≠ 0 := by
    intro h0
    rw [h0] at h
    norm_num [floatMin] at h
  rw [renormalize_of_threshold w0 w1 w2 w3 h]
  simp only [List.sum_cons, List.sum_nil, add_zero]
  field_simp
  ring

/-- C5: `GetWeightsAndIndices` maps the output coordinate `out_loc` to the
continuous input coordinate as `out_loc * scale` in `NONE` mode, as
`(out_loc + 0.5) * scale - 0.5` in `HALF_PIXEL` mode, and in
`PYTORCH_HALF_PIXEL` mode to the same half-pixel formula when
`out_size > 1` and to `0` when `out_size ≤ 1`. -/
theorem mapCoordinate_convention (scale : ℚ) (out_loc out_size : ℤ) :
    MapCoordinate scale .NONE out_loc out_size = (out_loc : ℚ) * scale ∧
    MapCoordinate scale .HALF_PIXEL out_loc out_size =
      ((out_loc : ℚ) + 1 / 2) * scale - 1 / 2 ∧
    MapCoordinate scale .PYTORCH_HALF_PIXEL out_loc out_size =
      (if 1 < out_size then ((out_loc : ℚ) + 1 / 2) * scale - 1 / 2
       else 0) := by
  refine ⟨rfl, rfl, rfl⟩

/-- C6: for every input to `GetWeightsAndIndices` the computed table
offset lies in `[0, kTableSize]`, hence all four coefficient-table read
positions `2*offset`, `2*offset + 1`, `2*(kTableSize - offset)` and
`2*(kTableSize - offset) + 1` lie inside the `2 * (kTableSize + 1)`-entry
table, so the out-of-bounds (junk) case of the table model is never
reached. -/
theorem tableOffset_in_range (scale : ℚ)
    (mode : CoordinateTransformationMode) (out_loc out_size : ℤ) :
    0 ≤ TableOffset scale mode out_loc out_size ∧
    TableOffset scale mode out_loc out_size ≤ kTableSize ∧
    0 ≤ TableOffset scale mode out_loc out_size * 2 ∧
    TableOffset scale mode out_loc out_size * 2 + 1 ≤ 2 * kTableSize + 1 ∧
    0 ≤ (kTableSize - TableOffset scale mode out_loc out_size) * 2 ∧
    (kTableSize - TableOffset scale mode out_loc out_size) * 2 + 1 ≤
      2 * kTableSize + 1 := by
  have h := tableOffset_bounds scale mode out_loc out_size
  omega

/-- C7: the table offset is the fractional position `frac = in - floor in`
scaled by `kTableSize` and rounded to the nearest integer (never more than
half a table step away, nearer than every other integer — in particular
not truncated), and away from exact ties it equals `round (frac * K)`. -/
theorem tableOffset_round_nearest (scale : ℚ)
    (mode : CoordinateTransformationMode) (out_loc out_size : ℤ) (x : ℚ)
    (hx : x = (MapCoordinate scale mode out_loc out_size -
          (⌊MapCoordinate scale mode out_loc out_size⌋ : ℚ)) *
        (kTableSize : ℚ)) :
    |(TableOffset scale mode out_loc out_size : ℚ) - x| ≤ 1 / 2 ∧
    (∀ n : ℤ, |(TableOffset scale mode out_loc out_size : ℚ) - x| ≤
      |(n : ℚ) - x|) ∧
    (x - (⌊x⌋ : ℚ) ≠ 1 / 2 →
      TableOffset scale mode out_loc out_size = round x) := by
  subst hx
  exact ⟨rne_sub_abs _, fun n => rne_nearest _ n, fun h => rne_eq_round _ h⟩

/-- Witness for C7 at `scale = 1/4`, `out_loc = 1`: the continuous
coordinate is `1/4`, the scaled fraction is `256`, and the offset is its
rounding. -/
theorem tableOffset_round_nearest_witness :
    TableOffset (1 / 4) .NONE 1 5 = round ((256 : ℚ)) ∧
      |(TableOffset (1 / 4) .NONE 1 5 : ℚ) - 256| ≤ 1 / 2 := by
  have h1 : MapCoordinate (1 / 4) .NONE 1 5 = 1 / 4 := by
    simp only [MapCoordinate, reduceCtorEq, if_false]
    norm_num
  have hx : (256 : ℚ) = (MapCoordinate (1 / 4) .NONE 1 5 -
      (⌊MapCoordinate (1 / 4) .NONE 1 5⌋ : ℚ)) * (kTableSize : ℚ) := by
    rw [h1]
    norm_num [kTableSize]
  have h := tableOffset_round_nearest (1 / 4) .NONE 1 5 256 hx
  exact ⟨h.2.2 (by norm_num), h.1⟩

/-- C2: for every scale factor, mode, output coordinate, output size and
axis limit at least `1`, all four source indices returned by
`GetWeightsAndIndices` lie in the closed interval `[0, limit - 1]`. -/
theorem getWeightsAndIndices_indices_in_range (scale : ℚ)
    (mode : CoordinateTransformationMode) (out_loc out_size limit : ℤ)
    (h : 1 ≤ limit) :
    ((GetWeightsAndIndices scale mode out_loc out_size limit).2.all
      fun i => decide (0 ≤ i ∧ i ≤ limit - 1)) = true := by
  simp only [GetWeightsAndIndices, List.all_cons, List.all_nil,
    Bool.and_true, Bool.and_eq_true, decide_eq_true_eq]
  exact ⟨bound_range _ limit h, bound_range _ limit h,
    bound_range _ limit h, bound_range _ limit h⟩

/-- Witness for C2 at `scale = 7/3`, `HALF_PIXEL`, `out_loc = 5`,
`limit = 7`. -/
theorem getWeightsAndIndices_indices_in_range_witness :
    ((GetWeightsAndIndices (7 / 3) .HALF_PIXEL 5 3 7).2.all
      fun i => decide (0 ≤ i ∧ i ≤ 7 - 1)) = true :=
  getWeightsAndIndices_indices_in_range (7 / 3) .HALF_PIXEL 5 3 7
    (by norm_num)

lemma renormalize_map_form (w0 w1 w2 w3 : ℚ)
    (h : 1000 * floatMin ≤ |[w0, w1, w2, w3].sum|) :
    RenormalizeWeights [w0, w1, w2, w3] =
      [w0, w1, w2, w3].map (fun w => w * (1 / [w0, w1, w2, w3].sum)) := by
  have hs : [w0, w1, w2, w3].sum = w0 + w1 + w2 + w3 := by
    simp only [List.sum_cons, List.sum_nil, add_zero]
    ring
  rw [hs] at h
  rw [renormalize_of_threshold w0 w1 w2 w3 h]
  simp only [List.map_cons, List.map_nil, hs]

/-- C3: in `HALF_PIXEL` mode, whenever the magnitude of the sum of the
four assembled raw weights is at least `1000` times the smallest positive
normalized float, the returned weights are the raw weights rescaled by the
reciprocal of that sum; and at every output coordinate where no tap is
clamped the four returned weights sum to exactly `1` (the raw table
weights already form a partition of unity there, so renormalization fires
and preserves the sum). -/
theorem halfPixel_weights_renormalized (scale : ℚ)
    (out_loc out_size limit in_loc offset : ℤ)
    (hil : in_loc = ⌊MapCoordinate scale .HALF_PIXEL out_loc out_size⌋)
    (hoff : offset = TableOffset scale .HALF_PIXEL out_loc out_size) :
    (1000 * floatMin ≤ |(HalfPixelRawWeights in_loc offset limit).sum| →
      (GetWeightsAndIndices scale .HALF_PIXEL out_loc out_size limit).1 =
        (HalfPixelRawWeights in_loc offset limit).map
          (fun w =>
            w * (1 / (HalfPixelRawWeights in_loc offset limit).sum))) ∧
    (Bound (in_loc - 1) limit = in_loc - 1 → Bound in_loc limit = in_loc →
      Bound (in_loc + 1) limit = in_loc + 1 →
      Bound (in_loc + 2) limit = in_loc + 2 →
      (GetWeightsAndIndices scale .HALF_PIXEL out_loc out_size limit).1.sum
        = 1) := by
  have hw : (GetWeightsAndIndices scale .HALF_PIXEL out_loc out_size
      limit).1 = RenormalizeWeights (HalfPixelRawWeights in_loc offset
      limit) := by
    subst hil hoff
    rfl
  constructor
  · intro h
    rw [hw]
    simp only [HalfPixelRawWeights] at h ⊢
    exact renormalize_map_form _ _ _ _ h
  · intro hb0 hb1 hb2 hb3
    have hbounds := tableOffset_bounds scale .HALF_PIXEL out_loc out_size
    rw [← hoff] at hbounds
    have hraw : HalfPixelRawWeights in_loc offset limit =
        [CoeffsTableEntry (-1 / 2) kTableSize (offset * 2 + 1),
         CoeffsTableEntry (-1 / 2) kTableSize (offset * 2),
         CoeffsTableEntry (-1 / 2) kTableSize ((kTableSize - offset) * 2),
         CoeffsTableEntry (-1 / 2) kTableSize
           ((kTableSize - offset) * 2 + 1)] := by
      simp only [HalfPixelRawWeights]
      rw [if_pos hb0, if_pos hb1, if_pos hb2, if_pos hb3]
      simp only [GetCoeffsTable, InitCoeffsTable, if_true]
    have hpart := coeffsEntry_partition_sum (-1 / 2) kTableSize offset
      (by norm_num [kTableSize]) hbounds.1 hbounds.2
    rw [hw, hraw]
    apply renormalize_sum_one
    rw [show CoeffsTableEntry (-1 / 2) kTableSize (offset * 2 + 1) +
        CoeffsTableEntry (-1 / 2) kTableSize (offset * 2) +
        CoeffsTableEntry (-1 / 2) kTableSize ((kTableSize - offset) * 2) +
        CoeffsTableEntry (-1 / 2) kTableSize ((kTableSize - offset) * 2 + 1)
        = 1 from hpart]
    norm_num [floatMin]

/-- Witness for C3 at `scale = 1`, `out_loc = 1`, `limit = 4`: the
continuous coordinate is `1`, no tap is clamped, and the returned
half-pixel weights sum to `1`. -/
theorem halfPixel_weights_renormalized_witness :
    (GetWeightsAndIndices 1 .HALF_PIXEL 1 4 4).1.sum = 1 := by
  have h1 : MapCoordinate 1 .HALF_PIXEL 1 4 = 1 := by
    simp only [MapCoordinate, if_pos]
    norm_num
  have hil : (1 : ℤ) = ⌊MapCoordinate 1 .HALF_PIXEL 1 4⌋ := by
    rw [h1]
    norm_num
  have hoff : (0 : ℤ) = TableOffset 1 .HALF_PIXEL 1 4 := by
    simp only [TableOffset, h1]
    norm_num [rne]
  exact (halfPixel_weights_renormalized 1 1 4 4 1 0 hil hoff).2
    (by simp [Bound]) (by simp [Bound]) (by simp [Bound]) (by simp [Bound])

/-- C9: in `PYTORCH_HALF_PIXEL` mode `GetWeightsAndIndices` takes the
non-half-pixel branch: the four weights are read directly from the default
`A = -0.75` table, with no tap zeroed and no renormalization; and every
mode other than `HALF_PIXEL` gets the same direct default-table weights. -/
theorem pytorch_mode_uses_default_table (scale : ℚ)
    (out_loc out_size limit : ℤ) :
    (GetWeightsAndIndices scale .PYTORCH_HALF_PIXEL out_loc out_size
        limit).1 =
      [InitCoeffsTable (-3 / 4)
        (TableOffset scale .PYTORCH_HALF_PIXEL out_loc out_size * 2 + 1),
       InitCoeffsTable (-3 / 4)
        (TableOffset scale .PYTORCH_HALF_PIXEL out_loc out_size * 2),
       InitCoeffsTable (-3 / 4)
        ((kTableSize -
          TableOffset scale .PYTORCH_HALF_PIXEL out_loc out_size) * 2),
       InitCoeffsTable (-3 / 4)
        ((kTableSize -
          TableOffset scale .PYTORCH_HALF_PIXEL out_loc out_size) * 2 + 1)]
    ∧ (∀ mode : CoordinateTransformationMode, mode ≠ .HALF_PIXEL →
        (GetWeightsAndIndices scale mode out_loc out_size limit).1 =
          DefaultWeights (TableOffset scale mode out_loc out_size)) := by
  constructor
  · rfl
  · intro mode hm
    simp only [GetWeightsAndIndices, if_neg hm]

/-- Witness for C9: the `NONE` mode also takes the default-table branch. -/
theorem pytorch_mode_uses_default_table_witness :
    (GetWeightsAndIndices 2 .NONE 1 3 4).1 =
      DefaultWeights (TableOffset 2 .NONE 1 3) :=
  (pytorch_mode_uses_default_table 2 1 3 4).2 .NONE (by decide)

/-- C8: the separable per-element computation of `ResizeImage` — four 1D
interpolations of the row taps with the column weights followed by one 1D
interpolation of the intermediates with the row weights — equals the full
2D convolution, the single weighted sum of all 16 products
`y_weight[i] * x_weight[j] * input[y_index[i]][x_index[j]]`. -/
theorem resizeImageElem_eq_full_conv (ci : ℤ → ℚ) (in_width : ℤ)
    (yw0 yw1 yw2 yw3 xw0 xw1 xw2 xw3 : ℚ)
    (yi0 yi1 yi2 yi3 xi0 xi1 xi2 xi3 : ℤ) :
    ResizeImageElem ci in_width [yw0, yw1, yw2, yw3] [yi0, yi1, yi2, yi3]
        [xw0, xw1, xw2, xw3] [xi0, xi1, xi2, xi3] =
      yw0 * xw0 * ci (yi0 * in_width + xi0) +
      yw0 * xw1 * ci (yi0 * in_width + xi1) +
      yw0 * xw2 * ci (yi0 * in_width + xi2) +
      yw0 * xw3 * ci (yi0 * in_width + xi3) +
      yw1 * xw0 * ci (yi1 * in_width + xi0) +
      yw1 * xw1 * ci (yi1 * in_width + xi1) +
      yw1 * xw2 * ci (yi1 * in_width + xi2) +
      yw1 * xw3 * ci (yi1 * in_width + xi3) +
      yw2 * xw0 * ci (yi2 * in_width + xi0) +
      yw2 * xw1 * ci (yi2 * in_width + xi1) +
      yw2 * xw2 * ci (yi2 * in_width + xi2) +
      yw2 * xw3 * ci (yi2 * in_width + xi3) +
      yw3 * xw0 * ci (yi3 * in_width + xi0) +
      yw3 * xw1 * ci (yi3 * in_width + xi1) +
      yw3 * xw2 * ci (yi3 * in_width + xi2) +
      yw3 * xw3 * ci (yi3 * in_width + xi3) := by
  simp only [ResizeImageElem, Interpolate1D, List.getD_cons_zero,
    List.getD_cons_succ]
  ring

/-- C1: when the input is 4-dimensional, the buffer length matches the
shape, and the resolved output size equals the input height and width, the
CPU `Run` returns the input buffer verbatim and does not invoke the 2D
resize driver (the `false` flag records that `ResizeImage` was not
called). -/
theorem cpu_run_identity_fast_path (size_ : List ℤ) (align_corners : Bool)
    (mode : CoordinateTransformationMode) (input : Tensor)
    (input1 : Option (ℤ × ℤ)) (h4 : input.dims.length = 4)
    (hres : ResolveSize size_ input1 =
      .ok (input.dims.getD 2 0, input.dims.getD 3 0))
    (hlen : (input.data.length : ℤ) =
      input.dims.getD 0 0 * input.dims.getD 1 0 * input.dims.getD 2 0 *
        input.dims.getD 3 0) :
    Run size_ align_corners mode input input1 = .ok (input.data, false) := by
  have ht : (input.dims.getD 0 0 * input.dims.getD 1 0 *
      input.dims.getD 2 0 * input.dims.getD 3 0).toNat =
      input.data.length := by omega
  simp only [Run, h4, hres, reduceIte, and_self, ht, List.take_length]

/-- Witness for C1: a `1x1x2x2` tensor with static size `[2, 2]` is copied
verbatim with the driver bypassed. -/
theorem cpu_run_identity_fast_path_witness :
    Run [2, 2] false .NONE ⟨[1, 1, 2, 2], [1, 2, 3, 4]⟩ none =
      .ok ([1, 2, 3, 4], false) :=
  cpu_run_identity_fast_path [2, 2] false .NONE ⟨[1, 1, 2, 2], [1, 2, 3, 4]⟩
    none (by rfl) (by rfl) (by decide)

/-- C4: the CPU `Run` fails with a validation error exactly when the input
rank is not 4, or the static size is absent or non-positive and no second
size-providing input is available; on `.error` no output buffer is
produced at all (the success payload does not exist). -/
theorem cpu_run_validation_error_iff (size_ : List ℤ)
    (align_corners : Bool) (mode : CoordinateTransformationMode)
    (input : Tensor) (input1 : Option (ℤ × ℤ)) :
    isErr (Run size_ align_corners mode input input1) =
      (decide (input.dims.length ≠ 4) ||
        (!StaticSizeValid size_ && input1.isNone)) := by
  by_cases h4 : input.dims.length = 4
  · by_cases hv : StaticSizeValid size_ = true
    · simp only [Run, ResolveSize, isErr, h4, hv, reduceIte, ne_eq,
        not_true_eq_false, decide_False, Bool.true_and, Bool.not_true,
        Bool.false_and, Bool.false_or, Bool.or_false]
      split_ifs <;> rfl
    · cases input1 with
      | none =>
        simp [Run, ResolveSize, isErr, h4, Bool.of_not_eq_true hv]
      | some hw =>
        simp only [Run, ResolveSize, isErr, h4, Bool.of_not_eq_true hv,
          reduceIte, Bool.false_eq_true, Option.isNone_some,
          Bool.and_false, Bool.or_false, ne_eq, not_true_eq_false,
          decide_False, Bool.false_or, Bool.not_false, Bool.true_and]
        split_ifs <;> rfl
  · simp [Run, isErr, h4]

/-- C10: the GPU `Run` performs no identity fast path: whenever the rank
check passes and the output size resolves, it delegates to the accelerator
kernel's `Compute` with the resolved size — also when that size equals the
input height and width — and never copies the input itself. -/
theorem gpu_run_always_delegates (size_ : List ℤ) (input : Tensor)
    (input1 : Option (ℤ × ℤ)) (out_height out_width : ℤ)
    (h4 : input.dims.length = 4)
    (hres : ResolveSize size_ input1 = .ok (out_height, out_width)) :
    GpuRun size_ input input1 = .ok (.computeKernel out_height out_width)
    := by
  simp only [GpuRun, h4, hres, reduceIte]

/-- Witness for C10: a `1x1x2x2` input resolved to the identical size
`[2, 2]` is still delegated to the kernel. -/
theorem gpu_run_always_delegates_witness :
    GpuRun [2, 2] ⟨[1, 1, 2, 2], [1, 2, 3, 4]⟩ none =
      .ok (.computeKernel 2 2) :=
  gpu_run_always_delegates [2, 2] ⟨[1, 1, 2, 2], [1, 2, 3, 4]⟩ none 2 2
    (by rfl) (by rfl)

end MaceOps
